import Mathlib

/-!
Verification of the `amiron-exec` cooperative task executor
(src/packages/amiron-exec/src/lib.rs).

The Rust code keeps two `HashMap`s keyed by `TaskId` (a `u32` newtype): a
task registry and a set of per-task message queues, plus a `u32` counter
`next_id` and an unused `current_task : Option<TaskId>` field.  We embed
the state shallowly: each `HashMap` becomes an association list (lookup
returns the first binding; the executor never creates duplicate keys, and
removal deletes every binding for the key, so the association list is an
exact model of the map), `u32` arithmetic becomes `Nat` arithmetic modulo
2^32 (release-mode Rust wraps on overflow of `next_id += 1`), byte
payloads `Vec<u8>` become `List Nat`, and `Option`/`bool` results are kept
as such.  A method taking `&mut self` is a function `Exec -> result x Exec`.
-/

set_option maxRecDepth 4096

namespace AmironExec

/-- TaskId is a transparent wrapper of a u32 value; we use the underlying
natural number. -/
abbrev TaskId := Nat

/-- The four task states of the Rust enum TaskState. -/
inductive TaskState where
  | Ready
  | Running
  | Waiting
  | Terminated
deriving DecidableEq, Repr

/-- The Rust struct Task { id, priority, state }.  priority is a u8 in the
source; no operation does arithmetic on it, so Nat is an order-faithful
embedding of its values. -/
structure Task where
  id : TaskId
  priority : Nat
  state : TaskState
deriving DecidableEq, Repr

/-- A message payload, Vec of u8 in the source. -/
abbrev Msg := List Nat

/-- Lookup in an association list, modelling HashMap::get. -/
def mapGet {α : Type} (k : TaskId) : List (TaskId × α) → Option α
  | [] => none
  | (k', v) :: l => if k' = k then some v else mapGet k l

/-- Insert or replace in an association list, modelling HashMap::insert
(also used to model in-place mutation through get_mut). -/
def mapInsert {α : Type} (k : TaskId) (v : α) : List (TaskId × α) → List (TaskId × α)
  | [] => [(k, v)]
  | (k', v') :: l => if k' = k then (k', v) :: l else (k', v') :: mapInsert k v l

/-- Delete a key from an association list, modelling HashMap::remove
(every binding of the key is deleted; the executor never creates
duplicates). -/
def mapRemove {α : Type} (k : TaskId) : List (TaskId × α) → List (TaskId × α)
  | [] => []
  | (k', v) :: l => if k' = k then mapRemove k l else (k', v) :: mapRemove k l

/-- The modulus of u32 arithmetic. -/
def u32 : Nat := 2 ^ 32

/-- The Rust struct Exec: task registry, next-id counter, the (unused)
current task, and the mailbox set. -/
@[ext]
structure Exec where
  tasks : List (TaskId × Task)
  next_id : Nat
  current_task : Option TaskId
  message_queues : List (TaskId × List Msg)
deriving DecidableEq, Repr

/-- Exec::new. -/
def Exec.new : Exec :=
  { tasks := []
    next_id := 1
    current_task := none
    message_queues := [] }

/-- Exec::create_task: allocate the id next_id, bump the counter (u32,
wrapping in release mode), insert a Ready task and an empty mailbox. -/
def Exec.create_task (e : Exec) (priority : Nat) : TaskId × Exec :=
  let id := e.next_id
  (id,
    { e with
      next_id := (e.next_id + 1) % u32
      tasks := mapInsert id { id := id, priority := priority, state := TaskState.Ready } e.tasks
      message_queues := mapInsert id [] e.message_queues })

/-- Exec::send_message: if a mailbox exists for the destination, push the
payload at its back and return true, else return false. -/
def Exec.send_message (e : Exec) (toId : TaskId) (msg : Msg) : Bool × Exec :=
  match mapGet toId e.message_queues with
  | some q =>
      (true, { e with message_queues := mapInsert toId (q ++ [msg]) e.message_queues })
  | none => (false, e)

/-- Exec::receive_message: if the mailbox exists and is non-empty, remove
and return its front element; otherwise return none. -/
def Exec.receive_message (e : Exec) (task : TaskId) : Option Msg × Exec :=
  match mapGet task e.message_queues with
  | some (m :: rest) =>
      (some m, { e with message_queues := mapInsert task rest e.message_queues })
  | some [] => (none, e)
  | none => (none, e)

/-- One step of the fold implementing Iterator::max_by_key on priority
(Rust keeps the later element on ties). -/
def maxStep (acc : Option Task) (t : Task) : Option Task :=
  match acc with
  | none => some t
  | some m => if m.priority ≤ t.priority then some t else some m

/-- The tasks of the registry currently in state Ready, in registry
iteration order (values().filter(...) in the source). -/
def readyTasks (e : Exec) : List Task :=
  (e.tasks.map Prod.snd).filter (fun t => decide (t.state = TaskState.Ready))

/-- Exec::schedule: the Ready task of maximal priority, if any.  The Rust
method takes a mutable reference but performs no write, so the state comes
back untouched. -/
def Exec.schedule (e : Exec) : Option TaskId × Exec :=
  (((readyTasks e).foldl maxStep none).map Task.id, e)

/-- Exec::terminate_task: mark the task Terminated if it exists (entry
retained), and unconditionally drop its mailbox. -/
def Exec.terminate_task (e : Exec) (id : TaskId) : Exec :=
  let tasks' :=
    match mapGet id e.tasks with
    | some task => mapInsert id { task with state := TaskState.Terminated } e.tasks
    | none => e.tasks
  { e with tasks := tasks', message_queues := mapRemove id e.message_queues }

/-- The five operations of the public interface, as uninterpreted events. -/
inductive Op where
  | create (priority : Nat)
  | send (toId : TaskId) (msg : Msg)
  | recv (task : TaskId)
  | term (id : TaskId)
  | sched
deriving DecidableEq, Repr

/-- State effect of one operation (result values dropped). -/
def applyOp (e : Exec) : Op → Exec
  | Op.create p => (e.create_task p).2
  | Op.send toId m => (e.send_message toId m).2
  | Op.recv t => (e.receive_message t).2
  | Op.term i => e.terminate_task i
  | Op.sched => (e.schedule).2

/-- Run a sequence of operations from a given state. -/
def runFrom (e : Exec) (ops : List Op) : Exec :=
  ops.foldl applyOp e

/-- Run a sequence of operations from a fresh executor. -/
def run (ops : List Op) : Exec :=
  runFrom Exec.new ops

/-- The states of one executor reachable through the public interface. -/
inductive Reachable : Exec → Prop where
  | new : Reachable Exec.new
  | step (e : Exec) (op : Op) : Reachable e → Reachable (applyOp e op)

/-- The TaskIds returned by the create_task calls of a sequence, in call
order. -/
def runIds (e : Exec) : List Op → List TaskId
  | [] => []
  | Op.create p :: ops => (e.create_task p).1 :: runIds (e.create_task p).2 ops
  | op :: ops => runIds (applyOp e op) ops

/-- Number of create_task calls in a sequence. -/
def numCreates : List Op → Nat
  | [] => 0
  | Op.create _ :: ops => numCreates ops + 1
  | _ :: ops => numCreates ops

example : (run [Op.create 3, Op.create 7]).next_id = 3 := by decide
example : (Exec.schedule (run [Op.create 3, Op.create 7, Op.create 7, Op.create 1])).1 = some 3 := by decide
example : (Exec.schedule Exec.new).1 = none := by decide
example : runIds Exec.new [Op.create 3, Op.sched, Op.create 7] = [1, 2] := by decide

/-! ### Association-list lemmas -/

theorem mapGet_mapInsert_self {α : Type} (k : TaskId) (v : α) (l : List (TaskId × α)) :
    mapGet k (mapInsert k v l) = some v := by
  induction l with
  | nil => simp [mapGet, mapInsert]
  | cons hd tl ih =>
      obtain ⟨k', v'⟩ := hd
      by_cases h : k' = k <;> simp [mapGet, mapInsert, h, ih]

theorem mapGet_mapInsert_ne {α : Type} {j k : TaskId} (h : j ≠ k) (v : α)
    (l : List (TaskId × α)) : mapGet j (mapInsert k v l) = mapGet j l := by
  induction l with
  | nil => simp [mapGet, mapInsert, Ne.symm h]
  | cons hd tl ih =>
      obtain ⟨k', v'⟩ := hd
      by_cases hk : k' = k
      · subst hk
        simp [mapGet, mapInsert, Ne.symm h]
      · by_cases hj : k' = j
        · subst hj
          simp [mapGet, mapInsert, hk]
        · simp [mapGet, mapInsert, hk, hj, ih]

theorem mapGet_mapRemove_self {α : Type} (k : TaskId) (l : List (TaskId × α)) :
    mapGet k (mapRemove k l) = none := by
  induction l with
  | nil => simp [mapGet, mapRemove]
  | cons hd tl ih =>
      obtain ⟨k', v'⟩ := hd
      by_cases h : k' = k <;> simp [mapGet, mapRemove, h, ih]

theorem mapGet_mapRemove_ne {α : Type} {j k : TaskId} (h : j ≠ k)
    (l : List (TaskId × α)) : mapGet j (mapRemove k l) = mapGet j l := by
  induction l with
  | nil => simp [mapRemove]
  | cons hd tl ih =>
      obtain ⟨k', v'⟩ := hd
      by_cases hk : k' = k
      · subst hk
        simp [mapGet, mapRemove, Ne.symm h, ih]
      · by_cases hj : k' = j
        · subst hj
          simp [mapGet, mapRemove, hk]
        · simp [mapGet, mapRemove, hk, hj, ih]

theorem mapInsert_mapInsert {α : Type} (k : TaskId) (v w : α) (l : List (TaskId × α)) :
    mapInsert k v (mapInsert k w l) = mapInsert k v l := by
  induction l with
  | nil => simp [mapInsert]
  | cons hd tl ih =>
      obtain ⟨k', v'⟩ := hd
      by_cases h : k' = k <;> simp [mapInsert, h, ih]

theorem mapRemove_mapRemove {α : Type} (k : TaskId) (l : List (TaskId × α)) :
    mapRemove k (mapRemove k l) = mapRemove k l := by
  induction l with
  | nil => simp [mapRemove]
  | cons hd tl ih =>
      obtain ⟨k', v'⟩ := hd
      by_cases h : k' = k <;> simp [mapRemove, h, ih]

theorem mapRemove_of_mapGet_none {α : Type} {k : TaskId} {l : List (TaskId × α)}
    (h : mapGet k l = none) : mapRemove k l = l := by
  induction l with
  | nil => simp [mapRemove]
  | cons hd tl ih =>
      obtain ⟨k', v'⟩ := hd
      by_cases hk : k' = k
      · simp [mapGet, hk] at h
      · simp [mapGet, hk] at h
        simp [mapRemove, hk, ih h]

/-! ### The max_by_key fold of schedule -/

theorem foldl_maxStep_some (l : List Task) (t : Task) :
    ∃ r, l.foldl maxStep (some t) = some r := by
  induction l generalizing t with
  | nil => exact ⟨t, rfl⟩
  | cons a l ih =>
      simp only [List.foldl_cons, maxStep]
      by_cases h : t.priority ≤ a.priority
      · simpa [h] using ih a
      · simpa [h] using ih t

theorem foldl_maxStep_spec (l : List Task) :
    ∀ (acc : Option Task) (r : Task), l.foldl maxStep acc = some r →
      (r ∈ l ∨ acc = some r) ∧ (∀ t ∈ l, t.priority ≤ r.priority) ∧
        (∀ m, acc = some m → m.priority ≤ r.priority) := by
  induction l with
  | nil =>
      intro acc r h
      simp only [List.foldl_nil] at h
      subst h
      exact ⟨Or.inr rfl, by simp, fun m hm => by simp_all⟩
  | cons a l ih =>
      intro acc r h
      simp only [List.foldl_cons] at h
      obtain ⟨hmem, hmax, hacc⟩ := ih (maxStep acc a) r h
      have hstep : ∃ s, maxStep acc a = some s ∧ a.priority ≤ s.priority ∧
          (s = a ∨ acc = some s) ∧ ∀ m, acc = some m → m.priority ≤ s.priority := by
        cases acc with
        | none => exact ⟨a, rfl, le_refl _, Or.inl rfl, by simp⟩
        | some m =>
            by_cases hp : m.priority ≤ a.priority
            · exact ⟨a, by simp [maxStep, hp], le_refl _, Or.inl rfl,
                fun m' hm' => by simp_all⟩
            · exact ⟨m, by simp [maxStep, hp], le_of_not_le hp, Or.inr rfl,
                fun m' hm' => by simp_all⟩
      obtain ⟨s, hs, has, hsrc, hsm⟩ := hstep
      have hsr : s.priority ≤ r.priority := hacc s hs
      refine ⟨?_, ?_, ?_⟩
      · rcases hmem with hr | hr
        · exact Or.inl (List.mem_cons_of_mem _ hr)
        · rw [hs] at hr
          injection hr with hr
          rcases hsrc with h1 | h1
          · exact Or.inl (by rw [← hr, h1]; exact List.mem_cons_self _ _)
          · exact Or.inr (by rw [h1, hr])
      · intro t ht
        rcases List.mem_cons.mp ht with h1 | h1
        · rw [h1]; exact le_trans has hsr
        · exact hmax t h1
      · intro m hm
        exact le_trans (hsm m hm) hsr

/-- C1: whenever at least one registry task is in state Ready, schedule
returns the id of a Ready task whose priority is maximal among all Ready
tasks, and when no task is Ready, schedule returns the empty result. -/
theorem schedule_max_priority (e : Exec) :
    (readyTasks e ≠ [] →
      ∃ t, t ∈ readyTasks e ∧ (Exec.schedule e).1 = some t.id ∧
        ∀ u ∈ readyTasks e, u.priority ≤ t.priority) ∧
    (readyTasks e = [] → (Exec.schedule e).1 = none) := by
  constructor
  · intro hne
    obtain ⟨a, l, hl⟩ := List.exists_cons_of_ne_nil hne
    have hsome : ∃ r, (readyTasks e).foldl maxStep none = some r := by
      rw [hl, List.foldl_cons]
      exact foldl_maxStep_some l a
    obtain ⟨r, hr⟩ := hsome
    obtain ⟨hmem, hmax, -⟩ := foldl_maxStep_spec (readyTasks e) none r hr
    refine ⟨r, ?_, ?_, hmax⟩
    · rcases hmem with h | h
      · exact h
      · simp at h
    · simp [Exec.schedule, hr]
  · intro h
    simp [Exec.schedule, h]

/-- Witness for C1: on the registry with Ready priorities 3, 7, 7, 1 the
schedule result is the id of a maximal-priority Ready task, and on the
fresh executor it is empty. -/
theorem schedule_max_priority_witness :
    (∃ t, t ∈ readyTasks (run [Op.create 3, Op.create 7, Op.create 7, Op.create 1]) ∧
      (Exec.schedule (run [Op.create 3, Op.create 7, Op.create 7, Op.create 1])).1 = some t.id ∧
      ∀ u ∈ readyTasks (run [Op.create 3, Op.create 7, Op.create 7, Op.create 1]),
        u.priority ≤ t.priority) ∧
    (Exec.schedule Exec.new).1 = none :=
  ⟨(schedule_max_priority (run [Op.create 3, Op.create 7, Op.create 7, Op.create 1])).1
      (by decide),
   (schedule_max_priority Exec.new).2 rfl⟩

/-- C7: schedule has no side effects: the task registry, the next-id
counter, the current_task field and the mailbox set after the call all
equal their values before it, hence so does the whole state. -/
theorem schedule_no_side_effects (e : Exec) :
    (Exec.schedule e).2.tasks = e.tasks ∧
    (Exec.schedule e).2.next_id = e.next_id ∧
    (Exec.schedule e).2.current_task = e.current_task ∧
    (Exec.schedule e).2.message_queues = e.message_queues ∧
    (Exec.schedule e).2 = e :=
  ⟨rfl, rfl, rfl, rfl, rfl⟩

/-- C10: whenever send_message returns false or receive_message returns
the empty result, the state is unchanged by that call. -/
theorem failed_send_recv_state_unchanged (e : Exec) (toId task : TaskId) (msg : Msg) :
    ((e.send_message toId msg).1 = false → (e.send_message toId msg).2 = e) ∧
    ((e.receive_message task).1 = none → (e.receive_message task).2 = e) := by
  constructor
  · intro h
    unfold Exec.send_message at h ⊢
    cases hq : mapGet toId e.message_queues with
    | none => simp [hq]
    | some q => rw [hq] at h; simp at h
  · intro h
    unfold Exec.receive_message at h ⊢
    cases hq : mapGet task e.message_queues with
    | none => simp [hq]
    | some q =>
        cases q with
        | nil => simp [hq]
        | cons m rest => rw [hq] at h; simp at h

/-- Witness for C10: on the fresh executor a send to id 0 fails and a
receive from id 0 is empty, and both leave the state equal to itself. -/
theorem failed_send_recv_state_unchanged_witness :
    (Exec.new.send_message 0 [1]).2 = Exec.new ∧
    (Exec.new.receive_message 0).2 = Exec.new :=
  ⟨(failed_send_recv_state_unchanged Exec.new 0 0 [1]).1 rfl,
   (failed_send_recv_state_unchanged Exec.new 0 0 [1]).2 rfl⟩

/-! ### Message-queue step lemmas -/

theorem send_message_queue_some {e : Exec} {T : TaskId} {q : List Msg}
    (h : mapGet T e.message_queues = some q) (m : Msg) :
    (e.send_message T m).1 = true ∧
    mapGet T (e.send_message T m).2.message_queues = some (q ++ [m]) := by
  unfold Exec.send_message
  rw [h]
  exact ⟨rfl, by simp [mapGet_mapInsert_self]⟩

theorem receive_message_queue_cons {e : Exec} {T : TaskId} {m : Msg} {rest : List Msg}
    (h : mapGet T e.message_queues = some (m :: rest)) :
    (e.receive_message T).1 = some m ∧
    mapGet T (e.receive_message T).2.message_queues = some rest := by
  unfold Exec.receive_message
  rw [h]
  exact ⟨rfl, by simp [mapGet_mapInsert_self]⟩

theorem receive_message_queue_nil {e : Exec} {T : TaskId}
    (h : mapGet T e.message_queues = some []) :
    (e.receive_message T).1 = none ∧ (e.receive_message T).2 = e := by
  unfold Exec.receive_message
  rw [h]
  exact ⟨rfl, rfl⟩

/-- C2: from any state in which task T has a mailbox that is empty, sending
m1, m2, m3 to T and then calling receive_message four times in a row on T
yields m1, then m2, then m3, then the empty result. -/
theorem fifo_per_mailbox (e : Exec) (T : TaskId) (m1 m2 m3 : Msg)
    (h : mapGet T e.message_queues = some []) :
    let e3 := (((e.send_message T m1).2.send_message T m2).2.send_message T m3).2
    let r1 := e3.receive_message T
    let r2 := r1.2.receive_message T
    let r3 := r2.2.receive_message T
    let r4 := r3.2.receive_message T
    r1.1 = some m1 ∧ r2.1 = some m2 ∧ r3.1 = some m3 ∧ r4.1 = none := by
  intro e3 r1 r2 r3 r4
  have hq1 := (send_message_queue_some h m1).2
  have hq2 := (send_message_queue_some hq1 m2).2
  have hq3 := (send_message_queue_some hq2 m3).2
  simp only [List.nil_append] at hq1 hq2 hq3
  obtain ⟨hv1, hq4⟩ := receive_message_queue_cons hq3
  obtain ⟨hv2, hq5⟩ := receive_message_queue_cons hq4
  obtain ⟨hv3, hq6⟩ := receive_message_queue_cons hq5
  obtain ⟨hv4, -⟩ := receive_message_queue_nil hq6
  exact ⟨hv1, hv2, hv3, hv4⟩

/-- Witness for C2: create one task (id 1), send it payloads 10, 20, 30,
and receive four times. -/
theorem fifo_per_mailbox_witness :
    let e := (Exec.new.create_task 5).2
    let e3 := (((e.send_message 1 [10]).2.send_message 1 [20]).2.send_message 1 [30]).2
    let r1 := e3.receive_message 1
    let r2 := r1.2.receive_message 1
    let r3 := r2.2.receive_message 1
    let r4 := r3.2.receive_message 1
    r1.1 = some [10] ∧ r2.1 = some [20] ∧ r3.1 = some [30] ∧ r4.1 = none :=
  fifo_per_mailbox (Exec.new.create_task 5).2 1 [10] [20] [30] rfl

/-! ### Absent mailboxes stay absent under non-create operations -/

/-- Whether an operation is a create_task call. -/
def isCreate : Op → Bool
  | Op.create _ => true
  | _ => false

theorem no_mailbox_applyOp {e : Exec} {T : TaskId} (op : Op)
    (h : mapGet T e.message_queues = none) (hop : isCreate op = false) :
    mapGet T (applyOp e op).message_queues = none := by
  cases op with
  | create p => simp [isCreate] at hop
  | send toId m =>
      simp only [applyOp]
      unfold Exec.send_message
      cases hq : mapGet toId e.message_queues with
      | none => simpa using h
      | some q =>
          have hne : T ≠ toId := by
            intro he
            rw [he, hq] at h
            cases h
          simpa [mapGet_mapInsert_ne hne] using h
  | recv t =>
      simp only [applyOp]
      unfold Exec.receive_message
      cases hq : mapGet t e.message_queues with
      | none => simpa using h
      | some q =>
          cases q with
          | nil => simpa using h
          | cons m rest =>
              have hne : T ≠ t := by
                intro he
                rw [he, hq] at h
                cases h
              simpa [mapGet_mapInsert_ne hne] using h
  | term i =>
      simp only [applyOp]
      unfold Exec.terminate_task
      by_cases hi : T = i
      · subst hi
        simp [mapGet_mapRemove_self]
      · simpa [mapGet_mapRemove_ne hi] using h
  | sched => simpa using h

theorem no_mailbox_runFrom {e : Exec} {T : TaskId} {ops : List Op}
    (h : mapGet T e.message_queues = none)
    (hops : ∀ op ∈ ops, isCreate op = false) :
    mapGet T (runFrom e ops).message_queues = none := by
  induction ops generalizing e with
  | nil => simpa [runFrom] using h
  | cons op ops ih =>
      have h1 := no_mailbox_applyOp op h (hops op (List.mem_cons_self _ _))
      have h2 := ih h1 (fun o ho => hops o (List.mem_cons_of_mem _ ho))
      simpa [runFrom] using h2

/-- C4: after terminate_task T, and after any further operations none of
which is a create_task call, a send to T returns false and a receive from
T returns the empty result (the pending messages were discarded with the
mailbox). -/
theorem terminated_task_rejects (e : Exec) (T : TaskId) (ops : List Op) (m : Msg)
    (hops : ∀ op ∈ ops, isCreate op = false) :
    ((runFrom (e.terminate_task T) ops).send_message T m).1 = false ∧
    ((runFrom (e.terminate_task T) ops).receive_message T).1 = none := by
  have h0 : mapGet T (e.terminate_task T).message_queues = none := by
    unfold Exec.terminate_task
    exact mapGet_mapRemove_self T _
  have hN := no_mailbox_runFrom h0 hops
  constructor
  · unfold Exec.send_message
    rw [hN]
  · unfold Exec.receive_message
    rw [hN]

/-- Witness for C4: create task 1, send it a message, terminate it, run a
schedule call; then a send to 1 fails and a receive from 1 is empty. -/
theorem terminated_task_rejects_witness :
    ((runFrom ((run [Op.create 5, Op.send 1 [7]]).terminate_task 1) [Op.sched]).send_message
        1 [9]).1 = false ∧
    ((runFrom ((run [Op.create 5, Op.send 1 [7]]).terminate_task 1) [Op.sched]).receive_message
        1).1 = none :=
  terminated_task_rejects (run [Op.create 5, Op.send 1 [7]]) 1 [Op.sched] [9] (by decide)

/-! ### Idempotence of terminate_task -/

theorem task_terminated_update_idem (t : Task) :
    ({ ({ t with state := TaskState.Terminated }) with state := TaskState.Terminated } : Task)
      = { t with state := TaskState.Terminated } := rfl

/-- C6: terminate_task is idempotent, and on an id holding neither a
registry entry nor a mailbox (in particular on any never-created id) it
leaves the state unchanged. -/
theorem terminate_task_idempotent (e : Exec) (T : TaskId) :
    ((e.terminate_task T).terminate_task T = e.terminate_task T) ∧
    (mapGet T e.tasks = none → mapGet T e.message_queues = none →
      e.terminate_task T = e) := by
  constructor
  · cases ht : mapGet T e.tasks with
    | none =>
        have h1 : e.terminate_task T =
            { e with message_queues := mapRemove T e.message_queues } := by
          simp [Exec.terminate_task, ht]
        rw [h1]
        have h2 : mapGet T ({ e with
            message_queues := mapRemove T e.message_queues } : Exec).tasks = none := ht
        simp [Exec.terminate_task, h2, mapRemove_mapRemove]
    | some t =>
        have h1 : e.terminate_task T =
            { e with
              tasks := mapInsert T { t with state := TaskState.Terminated } e.tasks
              message_queues := mapRemove T e.message_queues } := by
          simp [Exec.terminate_task, ht]
        rw [h1]
        have h2 : mapGet T (({ e with
            tasks := mapInsert T { t with state := TaskState.Terminated } e.tasks
            message_queues := mapRemove T e.message_queues } : Exec).tasks)
            = some { t with state := TaskState.Terminated } :=
          mapGet_mapInsert_self T _ e.tasks
        simp [Exec.terminate_task, h2, task_terminated_update_idem,
          mapInsert_mapInsert, mapRemove_mapRemove]
  · intro ht hq
    simp [Exec.terminate_task, ht, mapRemove_of_mapGet_none hq]

/-- Witness for C6: terminating the never-created id 3 on the fresh
executor twice equals doing it once, and doing it once changes nothing. -/
theorem terminate_task_idempotent_witness :
    ((Exec.new.terminate_task 3).terminate_task 3 = Exec.new.terminate_task 3) ∧
    Exec.new.terminate_task 3 = Exec.new :=
  ⟨(terminate_task_idempotent Exec.new 3).1,
   (terminate_task_idempotent Exec.new 3).2 rfl rfl⟩

/-! ### Reachable-state invariants -/

theorem create_task_fst (e : Exec) (p : Nat) : (e.create_task p).1 = e.next_id := rfl

theorem create_task_tasks (e : Exec) (p : Nat) :
    (e.create_task p).2.tasks =
      mapInsert e.next_id { id := e.next_id, priority := p, state := TaskState.Ready }
        e.tasks := rfl

theorem create_task_queues (e : Exec) (p : Nat) :
    (e.create_task p).2.message_queues = mapInsert e.next_id [] e.message_queues := rfl

theorem create_task_next_id (e : Exec) (p : Nat) :
    (e.create_task p).2.next_id = (e.next_id + 1) % u32 := rfl

theorem send_message_none_state {e : Exec} {toId : TaskId}
    (h : mapGet toId e.message_queues = none) (m : Msg) :
    (e.send_message toId m).2 = e := by
  unfold Exec.send_message
  rw [h]

theorem send_message_some_state {e : Exec} {toId : TaskId} {q : List Msg}
    (h : mapGet toId e.message_queues = some q) (m : Msg) :
    (e.send_message toId m).2 =
      { e with message_queues := mapInsert toId (q ++ [m]) e.message_queues } := by
  unfold Exec.send_message
  rw [h]

theorem receive_message_none_state {e : Exec} {task : TaskId}
    (h : mapGet task e.message_queues = none) :
    (e.receive_message task).2 = e := by
  unfold Exec.receive_message
  rw [h]

theorem receive_message_cons_state {e : Exec} {task : TaskId} {m : Msg} {rest : List Msg}
    (h : mapGet task e.message_queues = some (m :: rest)) :
    (e.receive_message task).2 =
      { e with message_queues := mapInsert task rest e.message_queues } := by
  unfold Exec.receive_message
  rw [h]

theorem terminate_task_none_state {e : Exec} {i : TaskId} (h : mapGet i e.tasks = none) :
    e.terminate_task i = { e with message_queues := mapRemove i e.message_queues } := by
  simp [Exec.terminate_task, h]

theorem terminate_task_some_state {e : Exec} {i : TaskId} {t : Task}
    (h : mapGet i e.tasks = some t) :
    e.terminate_task i =
      { e with
        tasks := mapInsert i { t with state := TaskState.Terminated } e.tasks
        message_queues := mapRemove i e.message_queues } := by
  simp [Exec.terminate_task, h]

/-- The combined invariant of reachable states: a mailbox exists exactly
for the ids holding a non-Terminated registry entry, every registry entry
is Ready or Terminated, and current_task is none. -/
def Inv (e : Exec) : Prop :=
  (∀ id : TaskId, (mapGet id e.message_queues).isSome = true ↔
      ∃ t, mapGet id e.tasks = some t ∧ t.state ≠ TaskState.Terminated)
  ∧ (∀ id t, mapGet id e.tasks = some t →
      (t.state = TaskState.Ready ∨ t.state = TaskState.Terminated))
  ∧ e.current_task = none

theorem inv_new : Inv Exec.new := by
  refine ⟨?_, ?_, rfl⟩
  · intro id
    simp [Exec.new, mapGet]
  · intro id t h
    simp [Exec.new, mapGet] at h

theorem inv_applyOp {e : Exec} (op : Op) (h : Inv e) : Inv (applyOp e op) := by
  obtain ⟨hmb, hst, hct⟩ := h
  cases op with
  | create p =>
      refine ⟨?_, ?_, hct⟩
      · intro id
        by_cases hid : id = e.next_id
        · subst hid
          simp [applyOp, create_task_queues, create_task_tasks, mapGet_mapInsert_self]
        · simp only [applyOp, create_task_queues, create_task_tasks,
            mapGet_mapInsert_ne hid]
          exact hmb id
      · intro id t hgt
        by_cases hid : id = e.next_id
        · subst hid
          rw [applyOp, create_task_tasks, mapGet_mapInsert_self] at hgt
          injection hgt with hgt
          rw [← hgt]
          exact Or.inl rfl
        · rw [applyOp, create_task_tasks, mapGet_mapInsert_ne hid] at hgt
          exact hst id t hgt
  | send toId m =>
      simp only [applyOp]
      cases hq : mapGet toId e.message_queues with
      | none =>
          rw [send_message_none_state hq]
          exact ⟨hmb, hst, hct⟩
      | some q =>
          rw [send_message_some_state hq m]
          refine ⟨?_, hst, hct⟩
          intro id
          by_cases hid : id = toId
          · subst hid
            constructor
            · intro _
              exact (hmb id).mp (by rw [hq]; rfl)
            · intro _
              simp [mapGet_mapInsert_self]
          · simpa only [mapGet_mapInsert_ne hid] using hmb id
  | recv task =>
      simp only [applyOp]
      cases hq : mapGet task e.message_queues with
      | none =>
          rw [receive_message_none_state hq]
          exact ⟨hmb, hst, hct⟩
      | some q =>
          cases q with
          | nil =>
              rw [(receive_message_queue_nil hq).2]
              exact ⟨hmb, hst, hct⟩
          | cons m rest =>
              rw [receive_message_cons_state hq]
              refine ⟨?_, hst, hct⟩
              intro id
              by_cases hid : id = task
              · subst hid
                constructor
                · intro _
                  exact (hmb id).mp (by rw [hq]; rfl)
                · intro _
                  simp [mapGet_mapInsert_self]
              · simpa only [mapGet_mapInsert_ne hid] using hmb id
  | term i =>
      simp only [applyOp]
      cases ht : mapGet i e.tasks with
      | none =>
          rw [terminate_task_none_state ht]
          refine ⟨?_, hst, hct⟩
          intro id
          by_cases hid : id = i
          · subst hid
            simp [mapGet_mapRemove_self, ht]
          · simpa only [mapGet_mapRemove_ne hid] using hmb id
      | some tk =>
          rw [terminate_task_some_state ht]
          refine ⟨?_, ?_, hct⟩
          · intro id
            by_cases hid : id = i
            · subst hid
              simp [mapGet_mapRemove_self, mapGet_mapInsert_self]
            · simpa only [mapGet_mapRemove_ne hid, mapGet_mapInsert_ne hid] using hmb id
          · intro id t hgt
            by_cases hid : id = i
            · subst hid
              rw [mapGet_mapInsert_self] at hgt
              injection hgt with hgt
              rw [← hgt]
              exact Or.inr rfl
            · rw [mapGet_mapInsert_ne hid] at hgt
              exact hst id t hgt
  | sched => exact ⟨hmb, hst, hct⟩

theorem reachable_inv {e : Exec} (h : Reachable e) : Inv e := by
  induction h with
  | new => exact inv_new
  | step e op _ ih => exact inv_applyOp op ih

/-- C5: in every reachable state, a mailbox entry exists for an id exactly
when the registry holds that task with a state other than Terminated; in
particular a never-created id has no mailbox, and a terminated one has
none either. -/
theorem mailbox_iff_not_terminated (e : Exec) (h : Reachable e) (id : TaskId) :
    (mapGet id e.message_queues).isSome = true ↔
      ∃ t, mapGet id e.tasks = some t ∧ t.state ≠ TaskState.Terminated :=
  (reachable_inv h).1 id

/-- Witness for C5: the state after one create_task call, queried at the
issued id 1. -/
theorem mailbox_iff_not_terminated_witness :
    (mapGet 1 (applyOp Exec.new (Op.create 5)).message_queues).isSome = true ↔
      ∃ t, mapGet 1 (applyOp Exec.new (Op.create 5)).tasks = some t ∧
        t.state ≠ TaskState.Terminated :=
  mailbox_iff_not_terminated (applyOp Exec.new (Op.create 5))
    (Reachable.step Exec.new (Op.create 5) Reachable.new) 1

/-- C8: in every reachable state, every task in the registry is in state
Ready or Terminated; Running and Waiting are never reached. -/
theorem task_state_ready_or_terminated (e : Exec) (h : Reachable e) (id : TaskId)
    (t : Task) (ht : mapGet id e.tasks = some t) :
    t.state = TaskState.Ready ∨ t.state = TaskState.Terminated :=
  (reachable_inv h).2.1 id t ht

/-- Witness for C8: the task created by one create_task call. -/
theorem task_state_ready_or_terminated_witness :
    Task.state { id := 1, priority := 5, state := TaskState.Ready } = TaskState.Ready ∨
    Task.state { id := 1, priority := 5, state := TaskState.Ready } = TaskState.Terminated :=
  task_state_ready_or_terminated (applyOp Exec.new (Op.create 5))
    (Reachable.step Exec.new (Op.create 5) Reachable.new) 1
    { id := 1, priority := 5, state := TaskState.Ready } rfl

/-- C9: current_task is none in the fresh executor, no operation changes
it, and it is none in every reachable state. -/
theorem current_task_always_none (e : Exec) :
    Exec.new.current_task = none ∧
    (∀ op, (applyOp e op).current_task = e.current_task) ∧
    (Reachable e → e.current_task = none) := by
  refine ⟨rfl, ?_, fun h => (reachable_inv h).2.2⟩
  intro op
  cases op with
  | create p => rfl
  | send toId m =>
      simp only [applyOp]
      unfold Exec.send_message
      cases mapGet toId e.message_queues <;> rfl
  | recv task =>
      simp only [applyOp]
      unfold Exec.receive_message
      cases hq : mapGet task e.message_queues with
      | none => rfl
      | some q => cases q <;> rfl
  | term i => rfl
  | sched => rfl

/-- Witness for C9: the state after one schedule call from the fresh
executor. -/
theorem current_task_always_none_witness :
    (applyOp Exec.new Op.sched).current_task = none :=
  (current_task_always_none (applyOp Exec.new Op.sched)).2.2
    (Reachable.step Exec.new Op.sched Reachable.new)

/-! ### Issued TaskIds: the wrapping u32 counter -/

theorem applyOp_next_id {e : Exec} (op : Op) (h : isCreate op = false) :
    (applyOp e op).next_id = e.next_id := by
  cases op with
  | create p => simp [isCreate] at h
  | send toId m =>
      simp only [applyOp]
      unfold Exec.send_message
      cases mapGet toId e.message_queues <;> rfl
  | recv task =>
      simp only [applyOp]
      unfold Exec.receive_message
      cases hq : mapGet task e.message_queues with
      | none => rfl
      | some q => cases q <;> rfl
  | term i => rfl
  | sched => rfl

theorem range'_map_mod_congr : ∀ (n a b : Nat), a % u32 = b % u32 →
    (List.range' a n).map (fun x => x % u32) = (List.range' b n).map (fun x => x % u32) := by
  intro n
  induction n with
  | zero => intro a b h; simp
  | succ n ih =>
      intro a b h
      rw [List.range'_succ, List.range'_succ]
      simp only [List.map_cons]
      rw [h, ih (a + 1) (b + 1) (by rw [Nat.add_mod, h, ← Nat.add_mod])]

theorem runIds_formula : ∀ (ops : List Op) (e : Exec), e.next_id < u32 →
    runIds e ops = (List.range' e.next_id (numCreates ops)).map (fun x => x % u32) := by
  intro ops
  induction ops with
  | nil => intro e he; simp [runIds, numCreates]
  | cons op ops ih =>
      intro e he
      cases op with
      | create p =>
          have h2 : (e.next_id + 1) % u32 < u32 := Nat.mod_lt _ (by norm_num [u32])
          have h3 := ih (e.create_task p).2 (by rw [create_task_next_id]; exact h2)
          rw [create_task_next_id] at h3
          simp only [runIds, numCreates, create_task_fst]
          rw [List.range'_succ]
          simp only [List.map_cons]
          rw [Nat.mod_eq_of_lt he, h3,
            range'_map_mod_congr (numCreates ops) ((e.next_id + 1) % u32) (e.next_id + 1)
              (Nat.mod_mod_of_dvd _ dvd_rfl)]
      | send toId m =>
          have h1 : runIds e (Op.send toId m :: ops) = runIds (applyOp e (Op.send toId m)) ops := rfl
          rw [h1, ih _ (by rw [applyOp_next_id (Op.send toId m) (by simp [isCreate])]; exact he),
            applyOp_next_id (Op.send toId m) (by simp [isCreate])]
          rfl
      | recv task =>
          have h1 : runIds e (Op.recv task :: ops) = runIds (applyOp e (Op.recv task)) ops := rfl
          rw [h1, ih _ (by rw [applyOp_next_id (Op.recv task) (by simp [isCreate])]; exact he),
            applyOp_next_id (Op.recv task) (by simp [isCreate])]
          rfl
      | term i =>
          have h1 : runIds e (Op.term i :: ops) = runIds (applyOp e (Op.term i)) ops := rfl
          rw [h1, ih _ (by rw [applyOp_next_id (Op.term i) (by simp [isCreate])]; exact he),
            applyOp_next_id (Op.term i) (by simp [isCreate])]
          rfl
      | sched =>
          have h1 : runIds e (Op.sched :: ops) = runIds (applyOp e Op.sched) ops := rfl
          rw [h1, ih _ (by rw [applyOp_next_id (Op.sched) (by simp [isCreate])]; exact he),
            applyOp_next_id (Op.sched) (by simp [isCreate])]
          rfl

theorem numCreates_replicate (n : Nat) (p : Nat) :
    numCreates (List.replicate n (Op.create p)) = n := by
  induction n with
  | zero => rfl
  | succ n ih => simp [List.replicate_succ, numCreates, ih]

/-- Counterexample to C3 as stated: the u32 counter wraps, so the sequence
of 2^32 + 1 create_task calls receives the TaskId 1 twice (the calls
numbered 1 and 2^32 + 1), and the returned ids are not pairwise
distinct. -/
theorem create_task_ids_repeat_after_wrap :
    ¬ (runIds Exec.new (List.replicate (u32 + 1) (Op.create 0))).Nodup := by
  intro hnd
  rw [runIds_formula (List.replicate (u32 + 1) (Op.create 0)) Exec.new
    (by norm_num [Exec.new, u32])] at hnd
  rw [numCreates_replicate, show Exec.new.next_id = 1 from rfl] at hnd
  have hsplit : List.range' 1 (u32 + 1) = List.range' 1 u32 ++ List.range' (1 + u32) 1 := by
    rw [Nat.add_comm u32 1]
    exact (List.range'_append_1 1 u32 1).symm
  rw [hsplit, List.map_append, List.nodup_append] at hnd
  obtain ⟨-, -, hdisj⟩ := hnd
  have hmem1 : (1 : TaskId) ∈ (List.range' 1 u32).map (fun x => x % u32) :=
    List.mem_map.mpr ⟨1, List.mem_range'_1.mpr ⟨le_refl 1, by norm_num [u32]⟩,
      by norm_num [u32]⟩
  have hmem2 : (1 : TaskId) ∈ (List.range' (1 + u32) 1).map (fun x => x % u32) := by
    simp only [List.range'_one, List.map_cons, List.map_nil, List.mem_singleton]
    norm_num [u32]
  exact hdisj hmem1 hmem2

/-- C3 (amended): for every sequence of the five operations containing at
most 2^32 create_task calls, the TaskIds returned by those calls are
pairwise distinct, also across terminations; the original claim without
the 2^32 bound fails because the u32 counter wraps. -/
theorem create_task_ids_nodup (ops : List Op) (h : numCreates ops ≤ u32) :
    (runIds Exec.new ops).Nodup := by
  rw [runIds_formula ops Exec.new (by norm_num [Exec.new, u32]),
    show Exec.new.next_id = 1 from rfl]
  refine List.Nodup.map_on ?_ ?_
  · intro x hx y hy hxy
    rw [List.mem_range'_1] at hx hy
    have hx' : x ≤ u32 := by omega
    have hy' : y ≤ u32 := by omega
    rcases Nat.lt_or_ge x u32 with h1 | h1
    · rcases Nat.lt_or_ge y u32 with h2 | h2
      · rwa [Nat.mod_eq_of_lt h1, Nat.mod_eq_of_lt h2] at hxy
      · have hy2 : y = u32 := le_antisymm hy' h2
        rw [Nat.mod_eq_of_lt h1, hy2, Nat.mod_self] at hxy
        exact absurd hxy (Nat.one_le_iff_ne_zero.mp hx.1)
    · have hx2 : x = u32 := le_antisymm hx' h1
      rcases Nat.lt_or_ge y u32 with h2 | h2
      · rw [hx2, Nat.mod_self, Nat.mod_eq_of_lt h2] at hxy
        exact absurd hxy.symm (Nat.one_le_iff_ne_zero.mp hy.1)
      · rw [hx2, le_antisymm hy' h2]
  · exact List.nodup_range' _ _

/-- Witness for the amended C3: three interleaved operations with two
creates yield the distinct ids 1 and 2. -/
theorem create_task_ids_nodup_witness :
    (runIds Exec.new [Op.create 5, Op.term 1, Op.create 3]).Nodup :=
  create_task_ids_nodup [Op.create 5, Op.term 1, Op.create 3] (by decide)

/-! ### Re-issuing an id after the counter wraps -/

theorem runFrom_append (e : Exec) (l1 l2 : List Op) :
    runFrom e (l1 ++ l2) = runFrom (runFrom e l1) l2 :=
  List.foldl_append applyOp e l1 l2

theorem runFrom_creates_next_id (p : Nat) : ∀ (n : Nat) (e : Exec), e.next_id < u32 →
    (runFrom e (List.replicate n (Op.create p))).next_id = (e.next_id + n) % u32 := by
  intro n
  induction n with
  | zero =>
      intro e he
      simp [runFrom, Nat.mod_eq_of_lt he]
  | succ n ih =>
      intro e he
      rw [List.replicate_succ]
      have h1 : runFrom e (Op.create p :: List.replicate n (Op.create p))
          = runFrom (applyOp e (Op.create p)) (List.replicate n (Op.create p)) := rfl
      have h2 : (applyOp e (Op.create p)).next_id = (e.next_id + 1) % u32 := rfl
      rw [h1, ih _ (by rw [h2]; exact Nat.mod_lt _ (by norm_num [u32])), h2,
        Nat.mod_add_mod, Nat.add_assoc, Nat.add_comm 1 n]

/-- Counterexample to C4 as stated: create task 1, terminate it, then make
2^32 further create_task calls; the wrapped counter re-issues the TaskId 1
with a fresh mailbox, and a subsequent send_message to 1 returns true. -/
theorem send_after_terminate_succeeds_after_wrap :
    ((runFrom ((applyOp Exec.new (Op.create 5)).terminate_task 1)
        (List.replicate u32 (Op.create 0))).send_message 1 [0]).1 = true := by
  have hsplit : List.replicate u32 (Op.create 0)
      = List.replicate (u32 - 1) (Op.create 0) ++ [Op.create 0] := by
    rw [← List.replicate_succ']
    norm_num [u32]
  have he1n : ((applyOp Exec.new (Op.create 5)).terminate_task 1).next_id = 2 := rfl
  have h2 : (runFrom ((applyOp Exec.new (Op.create 5)).terminate_task 1)
      (List.replicate (u32 - 1) (Op.create 0))).next_id = 1 := by
    rw [runFrom_creates_next_id 0 (u32 - 1) _ (by rw [he1n]; norm_num [u32]), he1n]
    norm_num [u32]
  rw [hsplit, runFrom_append]
  have h3 : mapGet 1 (runFrom (runFrom ((applyOp Exec.new (Op.create 5)).terminate_task 1)
      (List.replicate (u32 - 1) (Op.create 0))) [Op.create 0]).message_queues = some [] := by
    rw [show runFrom (runFrom ((applyOp Exec.new (Op.create 5)).terminate_task 1)
        (List.replicate (u32 - 1) (Op.create 0))) [Op.create 0]
      = ((runFrom ((applyOp Exec.new (Op.create 5)).terminate_task 1)
        (List.replicate (u32 - 1) (Op.create 0))).create_task 0).2 from rfl]
    rw [create_task_queues, h2]
    exact mapGet_mapInsert_self 1 [] _
  exact (send_message_queue_some h3 [0]).1

end AmironExec
